import Mathlib

/-!
Verification development for the botdojo-rpc repository.

The TypeScript sources under src/ are shallowly embedded here:
JavaScript values become the inductive type JVal, the outbound and
inbound proxy marshalers (getRequestProxyObject, getReceivedProxyObject
in src/src/index.ts) become recursive Lean functions, the per-request
lifecycle of RPCConnection.sendRequest becomes a small step function,
the AbortHandler barge-in branch and the ChannelBroadcaster buffering
become step functions, and the PostMessageBridge CORS check and
compression codec are embedded as pure functions over code-point lists.
-/

namespace BotdojoRpc

/-- Model of a JavaScript runtime value as the marshalers see it.
Strings, numbers and booleans are the primitive leaves; vfunc is a live
function identified by a numeric tag; vstub is the asynchronous stub that
the inbound marshaler substitutes for a Function Reference Token (it
records the destination endpoint and the dotted token path it will call);
vobj is a plain object given by its own enumerable properties in
insertion order; varr is an array. -/
inductive JVal where
  | vnull
  | vbool (b : Bool)
  | vnum (n : Int)
  | vstr (s : String)
  | vfunc (fid : Nat)
  | vstub (destination : String) (functionName : String)
  | vobj (fields : List (String × JVal))
  | varr (elems : List JVal)

/-- JavaScript truthiness of a modeled value. -/
def truthy : JVal → Bool
  | .vnull => false
  | .vbool b => b
  | .vnum n => n != 0
  | .vstr s => s != ""
  | _ => true

/-- Property access v[key] for object values; none elsewhere
(primitives have no own ___function property). -/
def jlookup (v : JVal) (key : String) : Option JVal :=
  match v with
  | .vobj fields => (fields.find? (fun p => p.1 == key)).map (fun p => p.2)
  | _ => none

/-- The check prop.___function used by getReceivedProxyObject: the value
is an object whose ___function property is truthy. -/
def hasFunctionToken (v : JVal) : Bool :=
  match jlookup v "___function" with
  | some tv => truthy tv
  | none => false

/-- The dotted path carried by a Function Reference Token. -/
def tokenPath (v : JVal) : String :=
  match jlookup v "___function" with
  | some (.vstr s) => s
  | _ => ""

/-- The fixed list of universal object-protocol member names excluded by
getPropertyNames (src/src/index.ts:57-70). -/
def ignores : List String :=
  ["__defineGetter__", "__defineSetter__", "__lookupGetter__",
   "__lookupSetter__", "__proto__", "constructor", "hasOwnProperty",
   "isPrototypeOf", "propertyIsEnumerable", "toLocaleString",
   "toString", "valueOf"]

/-- Lexicographic comparison of code-point lists, modeling the default
Array.prototype.sort string comparator used by getPropertyNames. -/
def charListLe : List Char → List Char → Bool
  | [], _ => true
  | _ :: _, [] => false
  | a :: as, b :: bs =>
    if a.toNat < b.toNat then true
    else if b.toNat < a.toNat then false
    else charListLe as bs

/-- String comparator for the props.sort() call. -/
def strLe (a b : String) : Bool :=
  charListLe a.toList b.toList

/-- Insertion step of the sort in getPropertyNames, lifted to
(name, value) pairs. -/
def insertByKey (p : String × JVal) : List (String × JVal) → List (String × JVal)
  | [] => [p]
  | q :: rest => if strLe p.1 q.1 then p :: q :: rest else q :: insertByKey p rest

/-- props.sort() of getPropertyNames, lifted to (name, value) pairs. -/
def sortByKey : List (String × JVal) → List (String × JVal)
  | [] => []
  | p :: rest => insertByKey p (sortByKey rest)

/-- Deduplication of property names (the indexOf and includes guards in
getProps and getPropertyNames): the first binding of each name wins. -/
def dedupKeys (seen : List String) : List (String × JVal) → List (String × JVal)
  | [] => []
  | (k, v) :: rest =>
    if seen.contains k then dedupKeys seen rest
    else (k, v) :: dedupKeys (k :: seen) rest

/-- The property enumeration of getPropertyNames (src/src/index.ts:56-108)
applied to a plain data object, fused with the source[i] accesses that
follow it: own property names are deduplicated, the universal
object-protocol names are filtered out, and the result is sorted; since
keys are unique in a JavaScript object, iterating the sorted names and
reading source[name] is the same as iterating the sorted pairs. For a
plain object the prototype-chain walk contributes only ignored names. -/
def orderedProps (fields : List (String × JVal)) : List (String × JVal) :=
  sortByKey ((dedupKeys [] fields).filter (fun p => !(ignores.contains p.1)))

theorem sizeOf_insertByKey (p : String × JVal) (l : List (String × JVal)) :
    sizeOf (insertByKey p l) = 1 + sizeOf p + sizeOf l := by
  induction l with
  | nil => simp [insertByKey]
  | cons q rest ih =>
    simp only [insertByKey]
    split
    all_goals simp only [List.cons.sizeOf_spec, ih]
    all_goals try omega

theorem sizeOf_sortByKey (l : List (String × JVal)) :
    sizeOf (sortByKey l) = sizeOf l := by
  induction l with
  | nil => rfl
  | cons p rest ih =>
    simp only [sortByKey, sizeOf_insertByKey, ih, List.cons.sizeOf_spec]

theorem sizeOf_filter_le (f : String × JVal → Bool) (l : List (String × JVal)) :
    sizeOf (l.filter f) ≤ sizeOf l := by
  induction l with
  | nil => simp
  | cons p rest ih =>
    simp only [List.filter]
    split
    · simp only [List.cons.sizeOf_spec]
      omega
    · simp only [List.cons.sizeOf_spec]
      omega

theorem sizeOf_dedupKeys (seen : List String) (l : List (String × JVal)) :
    sizeOf (dedupKeys seen l) ≤ sizeOf l := by
  induction l generalizing seen with
  | nil => simp [dedupKeys]
  | cons p rest ih =>
    obtain ⟨k, v⟩ := p
    simp only [dedupKeys]
    split
    · have := ih seen
      simp only [List.cons.sizeOf_spec]
      omega
    · have := ih (k :: seen)
      simp only [List.cons.sizeOf_spec]
      omega

theorem sizeOf_orderedProps (fields : List (String × JVal)) :
    sizeOf (orderedProps fields) ≤ sizeOf fields := by
  unfold orderedProps
  calc sizeOf (sortByKey ((dedupKeys [] fields).filter (fun p => !(ignores.contains p.1))))
      = sizeOf ((dedupKeys [] fields).filter (fun p => !(ignores.contains p.1))) :=
        sizeOf_sortByKey _
    _ ≤ sizeOf (dedupKeys [] fields) := sizeOf_filter_le _ _
    _ ≤ sizeOf fields := sizeOf_dedupKeys _ _

/-- The callback registry of a Connection (Map(path, (ownerObject, function))):
an association list keyed by dotted path, holding the owner object and the
function value recorded at that path. -/
abbrev Callbacks := List (String × (JVal × JVal))

/-- JavaScript Map.set: update in place keeping insertion order, else append. -/
def mapSet (m : Callbacks) (k : String) (v : JVal × JVal) : Callbacks :=
  match m with
  | [] => [(k, v)]
  | (k2, v2) :: rest => if k2 = k then (k, v) :: rest else (k2, v2) :: mapSet rest k v

mutual

/-- Embedding of getRequestProxyObject (src/src/index.ts:110-177), the
outbound proxy marshaler. Arrays recurse element-wise with no depth check.
Objects enumerate properties via getPropertyNames; a function-valued
property becomes a Function Reference Token and the (owner, function) pair
is recorded in the callback registry; an object-valued property recurses
while depth is at most 99 (the source tests the literal 99 at
src/src/index.ts:151 and never reads its maxDepth parameter, which is only
forwarded to the recursive calls); otherwise the property passes through
unmarshaled. An object that marshals to zero properties collapses to null.
A function root throws. In JavaScript typeof null is the string object, so
a null source also takes the object branch; getPropertyNames(null) is
empty, hence the empty result collapses back to null. -/
def getRequestProxyObject (id : String) (callbacks : Callbacks) (source : JVal)
    (depth maxDepth : Nat) : Except String (JVal × Callbacks) :=
  match source with
  | .varr elems => do
    let (outElems, cbs) ← getRequestProxyObjectArr id callbacks elems 0 depth maxDepth
    Except.ok (.varr outElems, cbs)
  | .vobj fields => do
    let (outFields, cbs) ←
      getRequestProxyObjectProps id (.vobj fields) callbacks (orderedProps fields) depth maxDepth
    if outFields.isEmpty then Except.ok (.vnull, cbs)
    else Except.ok (.vobj outFields, cbs)
  | .vnull => Except.ok (.vnull, callbacks)
  | .vfunc _ => Except.error "root cannot be a function"
  | .vstub _ _ => Except.error "root cannot be a function"
  | other => Except.ok (other, callbacks)
termination_by 2 * sizeOf source + 1
decreasing_by
  · simp only [JVal.varr.sizeOf_spec]
    omega
  · have h := sizeOf_orderedProps fields
    simp only [JVal.vobj.sizeOf_spec]
    omega

/-- The source.forEach loop of the array branch: each element is marshaled
under id.index at depth + 1, threading the callback registry left to right. -/
def getRequestProxyObjectArr (id : String) (callbacks : Callbacks) (items : List JVal)
    (index : Nat) (depth maxDepth : Nat) : Except String (List JVal × Callbacks) :=
  match items with
  | [] => Except.ok ([], callbacks)
  | item :: rest => do
    let (v, cbs1) ← getRequestProxyObject (id ++ "." ++ toString index) callbacks item
      (depth + 1) maxDepth
    let (vs, cbs2) ← getRequestProxyObjectArr id cbs1 rest (index + 1) depth maxDepth
    Except.ok (v :: vs, cbs2)
termination_by 2 * sizeOf items
decreasing_by
  · simp only [List.cons.sizeOf_spec]
    omega
  · simp only [List.cons.sizeOf_spec]
    omega

/-- The getPropertyNames(source).forEach loop of the object branch.
owner is the object being marshaled (the source recorded with each
function in the registry). Note the depth guard tests the literal 99. -/
def getRequestProxyObjectProps (id : String) (owner : JVal) (callbacks : Callbacks)
    (props : List (String × JVal)) (depth maxDepth : Nat) :
    Except String (List (String × JVal) × Callbacks) :=
  match props with
  | [] => Except.ok ([], callbacks)
  | (name, prop) :: rest =>
    match prop with
    | .vfunc fid => do
      let cbs1 := mapSet callbacks (id ++ "." ++ name) (owner, .vfunc fid)
      let (vs, cbs2) ← getRequestProxyObjectProps id owner cbs1 rest depth maxDepth
      Except.ok ((name, JVal.vobj [("___function", JVal.vstr (id ++ "." ++ name))]) :: vs, cbs2)
    | .vstub d f => do
      let cbs1 := mapSet callbacks (id ++ "." ++ name) (owner, .vstub d f)
      let (vs, cbs2) ← getRequestProxyObjectProps id owner cbs1 rest depth maxDepth
      Except.ok ((name, JVal.vobj [("___function", JVal.vstr (id ++ "." ++ name))]) :: vs, cbs2)
    | .vobj f2 => do
      if depth ≤ 99 then
        let (v, cbs1) ← getRequestProxyObject (id ++ "." ++ name) callbacks (.vobj f2)
          (depth + 1) maxDepth
        let (vs, cbs2) ← getRequestProxyObjectProps id owner cbs1 rest depth maxDepth
        Except.ok ((name, v) :: vs, cbs2)
      else
        let (vs, cbs1) ← getRequestProxyObjectProps id owner callbacks rest depth maxDepth
        Except.ok ((name, JVal.vobj f2) :: vs, cbs1)
    | .varr e2 => do
      if depth ≤ 99 then
        let (v, cbs1) ← getRequestProxyObject (id ++ "." ++ name) callbacks (.varr e2)
          (depth + 1) maxDepth
        let (vs, cbs2) ← getRequestProxyObjectProps id owner cbs1 rest depth maxDepth
        Except.ok ((name, v) :: vs, cbs2)
      else
        let (vs, cbs1) ← getRequestProxyObjectProps id owner callbacks rest depth maxDepth
        Except.ok ((name, JVal.varr e2) :: vs, cbs1)
    | .vnull => do
      if depth ≤ 99 then
        let (v, cbs1) ← getRequestProxyObject (id ++ "." ++ name) callbacks .vnull
          (depth + 1) maxDepth
        let (vs, cbs2) ← getRequestProxyObjectProps id owner cbs1 rest depth maxDepth
        Except.ok ((name, v) :: vs, cbs2)
      else
        let (vs, cbs1) ← getRequestProxyObjectProps id owner callbacks rest depth maxDepth
        Except.ok ((name, JVal.vnull) :: vs, cbs1)
    | other => do
      let (vs, cbs1) ← getRequestProxyObjectProps id owner callbacks rest depth maxDepth
      Except.ok ((name, other) :: vs, cbs1)
termination_by 2 * sizeOf props
decreasing_by
  all_goals simp only [List.cons.sizeOf_spec, Prod.mk.sizeOf_spec, JVal.vobj.sizeOf_spec,
    JVal.varr.sizeOf_spec, JVal.vnull.sizeOf_spec]
  all_goals omega

end

mutual

/-- Embedding of getReceivedProxyObject (src/src/index.ts:179-238), the
inbound proxy marshaler. destination is the source endpoint of the message
being unmarshaled (the endpoint a stub will call back). Arrays recurse
element-wise. For an object, the function starts from an empty retval and
copies each property: falsy values are copied as-is, values carrying a
truthy ___function property become asynchronous stubs that send a nested
request to destination at the token path, nested objects and arrays
recurse, and other values are copied. A function root throws. Primitives
are returned as-is. In JavaScript typeof null is the string object, so a
null source takes the object branch: the property loop runs zero times
and the initial empty object is returned. -/
def getReceivedProxyObject (destination : String) (source : JVal) : Except String JVal :=
  match source with
  | .varr elems => do
    let outElems ← getReceivedProxyObjectArr destination elems
    Except.ok (.varr outElems)
  | .vobj fields => do
    let outFields ← getReceivedProxyObjectProps destination (orderedProps fields)
    Except.ok (.vobj outFields)
  | .vnull => do
    let outFields ← getReceivedProxyObjectProps destination (orderedProps [])
    Except.ok (.vobj outFields)
  | .vfunc _ => Except.error "root cannot be a function"
  | .vstub _ _ => Except.error "root cannot be a function"
  | other => Except.ok other
termination_by 2 * sizeOf source + 1
decreasing_by
  all_goals first
    | (simp only [JVal.varr.sizeOf_spec]
       omega)
    | (have h := sizeOf_orderedProps fields
       simp only [JVal.vobj.sizeOf_spec]
       omega)
    | (have h : orderedProps ([] : List (String × JVal)) = [] := rfl
       simp [h]
       try omega)

/-- The source.forEach loop of the inbound array branch. -/
def getReceivedProxyObjectArr (destination : String) (items : List JVal) :
    Except String (List JVal) :=
  match items with
  | [] => Except.ok []
  | item :: rest => do
    let v ← getReceivedProxyObject destination item
    let vs ← getReceivedProxyObjectArr destination rest
    Except.ok (v :: vs)
termination_by 2 * sizeOf items
decreasing_by
  · simp only [List.cons.sizeOf_spec]
    omega
  · simp only [List.cons.sizeOf_spec]
    omega

/-- The getPropertyNames(source).forEach loop of the inbound object
branch. The falsy check comes first, then the ___function token check,
then the object or array recursion, then plain copy. -/
def getReceivedProxyObjectProps (destination : String) (props : List (String × JVal)) :
    Except String (List (String × JVal)) :=
  match props with
  | [] => Except.ok []
  | (name, prop) :: rest =>
    if truthy prop = false then do
      let vs ← getReceivedProxyObjectProps destination rest
      Except.ok ((name, prop) :: vs)
    else if hasFunctionToken prop then do
      let vs ← getReceivedProxyObjectProps destination rest
      Except.ok ((name, JVal.vstub destination (tokenPath prop)) :: vs)
    else
      match prop with
      | .vobj f2 => do
        let v ← getReceivedProxyObject destination (.vobj f2)
        let vs ← getReceivedProxyObjectProps destination rest
        Except.ok ((name, v) :: vs)
      | .varr e2 => do
        let v ← getReceivedProxyObject destination (.varr e2)
        let vs ← getReceivedProxyObjectProps destination rest
        Except.ok ((name, v) :: vs)
      | other => do
        let vs ← getReceivedProxyObjectProps destination rest
        Except.ok ((name, other) :: vs)
termination_by 2 * sizeOf props
decreasing_by
  all_goals simp only [List.cons.sizeOf_spec, Prod.mk.sizeOf_spec, JVal.vobj.sizeOf_spec,
    JVal.varr.sizeOf_spec]
  all_goals omega

end

mutual

/-- True when the value still contains a live (unmarshaled) function. -/
def containsLiveFunc : JVal → Bool
  | .vfunc _ => true
  | .vobj fields => containsLiveFuncProps fields
  | .varr elems => containsLiveFuncList elems
  | _ => false
termination_by v => 2 * sizeOf v + 1
decreasing_by
  all_goals simp only [JVal.vobj.sizeOf_spec, JVal.varr.sizeOf_spec]
  all_goals omega

def containsLiveFuncProps : List (String × JVal) → Bool
  | [] => false
  | (_, v) :: rest => containsLiveFunc v || containsLiveFuncProps rest
termination_by l => 2 * sizeOf l
decreasing_by
  all_goals simp only [List.cons.sizeOf_spec, Prod.mk.sizeOf_spec]
  all_goals omega

def containsLiveFuncList : List JVal → Bool
  | [] => false
  | v :: rest => containsLiveFunc v || containsLiveFuncList rest
termination_by l => 2 * sizeOf l
decreasing_by
  all_goals simp only [List.cons.sizeOf_spec]
  all_goals omega

end

/-- True when the field list contains the ___function marker key. -/
def fieldsHaveTokenKey (fields : List (String × JVal)) : Bool :=
  fields.any (fun p => p.1 == "___function")

mutual

/-- True when the value contains a Function Reference Token object. -/
def containsFuncToken : JVal → Bool
  | .vobj fields => fieldsHaveTokenKey fields || containsFuncTokenProps fields
  | .varr elems => containsFuncTokenList elems
  | _ => false
termination_by v => 2 * sizeOf v + 1
decreasing_by
  all_goals simp only [JVal.vobj.sizeOf_spec, JVal.varr.sizeOf_spec]
  all_goals omega

def containsFuncTokenProps : List (String × JVal) → Bool
  | [] => false
  | (_, v) :: rest => containsFuncToken v || containsFuncTokenProps rest
termination_by l => 2 * sizeOf l
decreasing_by
  all_goals simp only [List.cons.sizeOf_spec, Prod.mk.sizeOf_spec]
  all_goals omega

def containsFuncTokenList : List JVal → Bool
  | [] => false
  | v :: rest => containsFuncToken v || containsFuncTokenList rest
termination_by l => 2 * sizeOf l
decreasing_by
  all_goals simp only [List.cons.sizeOf_spec]
  all_goals omega

end

/-- Field lists of a chain of singleton objects: vobj (nestFields k) is
k + 1 nested objects linked by property a, the innermost holding a
function under property f. The function sits at nesting level k + 1. -/
def nestFields : Nat → List (String × JVal)
  | 0 => [("f", JVal.vfunc 7)]
  | k + 1 => [("a", JVal.vobj (nestFields k))]

/-- What the outbound marshaler produces for vobj (nestFields k) when the
whole chain is traversed: the innermost function replaced by a Function
Reference Token. -/
def nestMarshaledFields : Nat → String → List (String × JVal)
  | 0, id => [("f", JVal.vobj [("___function", JVal.vstr (id ++ "." ++ "f"))])]
  | k + 1, id => [("a", JVal.vobj (nestMarshaledFields k (id ++ "." ++ "a")))]

/-- The dotted path under which the innermost function of
vobj (nestFields k) is registered. -/
def deepPath : Nat → String → String
  | 0, id => id ++ "." ++ "f"
  | k + 1, id => deepPath k (id ++ "." ++ "a")

/-- Message direction tag of RPCMessage. -/
inductive Direction where
  | request
  | response
deriving DecidableEq

/-- Embedding of the RPCMessage envelope (src/src/index.ts:240-287). -/
structure RPCMessage where
  id : String
  source : String
  destination : String
  direction : Direction
  functionName : String
  data : JVal
  host_id : String

/-- The RPCMessage constructor: it throws when source equals destination,
otherwise it assigns a freshly generated id (passed here as the uuid
argument, since generateUUID is nondeterministic) and sets host_id to
notset. The source text of the thrown message uses a contraction; it is
written here without one. -/
def RPCMessage.make (uuid source destination : String) (direction : Direction)
    (functionName : String) (data : JVal) : Except String RPCMessage :=
  if source = destination then
    Except.error "source and destination cannot be the same"
  else
    Except.ok
      { id := uuid, source := source, destination := destination,
        direction := direction, functionName := functionName, data := data,
        host_id := "notset" }

/-- RPCMessage.response (src/src/index.ts:259-269): build a response
message with the source and destination of msg swapped, then overwrite the
fresh id with the id of msg. -/
def RPCMessage.response (uuid : String) (msg : RPCMessage) (data : JVal) :
    Except String RPCMessage :=
  (RPCMessage.make uuid msg.destination msg.source Direction.response
    msg.functionName data).map (fun m => { m with id := msg.id })

/-- Embedding of the RPCMessageError shape (src/src/index.ts:23-38) built
from a plain string: an object with _type MessageError, the message text,
and the original error value. -/
def mkRPCMessageError (message : String) : JVal :=
  .vobj [("_type", .vstr "MessageError"), ("message", .vstr message),
    ("error", .vstr message)]

/-- The check args[0]?._type == MessageError used by the pending-call
completion callback of sendRequest. -/
def isMessageErrorData (d : JVal) : Bool :=
  match jlookup d "_type" with
  | some (.vstr s) => s == "MessageError"
  | _ => false

/-- The timeoutMs ?? this.options?.timeout ?? 30000 resolution in
sendRequest (src/src/index.ts:402). -/
def effectiveTimeout (timeoutMs optionsTimeout : Option Nat) : Nat :=
  match timeoutMs with
  | some t => t
  | none =>
    match optionsTimeout with
    | some t => t
    | none => 30000

/-- Lifecycle state of one pending call of RPCConnection.sendRequest,
for one correlation id. inTable says whether the entry is still in the
callbacks map of the Connection; responseSent is the flag captured by the
completion closure and by the timeout timer; promise is the state of the
returned promise (none while pending, ok on resolve, error on reject). -/
structure CallState where
  inTable : Bool
  responseSent : Bool
  promise : Option (Except JVal JVal)

/-- State of a pending call right after sendRequest registered it. -/
def initialCall : CallState :=
  { inTable := true, responseSent := false, promise := none }

/-- Events that can reach a pending call: its timeout timer fires
(src/src/index.ts:395-403), or a response message with its correlation id
is delivered to incommingMessage (src/src/index.ts:519-534). The event
carries the response data as already passed through
getReceivedProxyObject, which incommingMessage applies to msg.data before
the callback lookup. -/
inductive CallEvent where
  | timeoutFires (destinationId functionName : String)
  | responseArrives (data : JVal)

/-- One step of the pending-call lifecycle. On timeout: if the response
was not sent yet, mark it sent and reject with a timeout RPCMessageError;
the callbacks entry is not touched. On response delivery: the entry is
looked up and deleted; if present, the completion closure runs - a second
settlement attempt is a logged no-op, otherwise the promise rejects with
data tagged MessageError and resolves with anything else. A delivery that
finds no entry is a logged no-op. -/
def callStep (s : CallState) : CallEvent → CallState
  | .timeoutFires destinationId functionName =>
    if s.responseSent then s
    else
      { s with
        responseSent := true
        promise := some (Except.error (mkRPCMessageError
          ("Timeout waiting for response from " ++ destinationId ++ " for " ++ functionName))) }
  | .responseArrives data =>
    if s.inTable then
      let s1 := { s with inTable := false }
      if s1.responseSent then s1
      else
        { s1 with
          responseSent := true
          promise := some (if isMessageErrorData data then Except.error data
            else Except.ok data) }
    else s

/-- Per-node state of an AbortHandler (src/src/PostMessageBridge.ts,
abort module): the three mode flags. -/
structure AbortState where
  aborting : Bool
  bargingIn : Bool
  hydrating : Bool
deriving DecidableEq

/-- The idle coordinator state. -/
def abortIdle : AbortState :=
  { aborting := false, bargingIn := false, hydrating := false }

/-- Replies an AbortHandler can send for an inbound control message. -/
inductive AbortReply where
  | pong
  | bargedIn (message : String)
  | hydrated
  | aborted (message : String)
  | errorReply (message : String)
deriving DecidableEq

/-- Promise.all over the already-determined listener outcomes: ok with
every fulfillment value when all listeners fulfill, otherwise the first
rejection in list order (listeners are modeled as settling in
registration order, so the first settled rejection is the first one in
the list). -/
def promiseAll {α : Type} : List (Except String α) → Except String (List α)
  | [] => Except.ok []
  | r :: rest => do
    let v ← r
    let vs ← promiseAll rest
    Except.ok (v :: vs)

/-- The inbound barge-in branch of the AbortHandler message handler:
it sets bargingIn, awaits Promise.all over the barge-in listeners inside
a try block, and replies barged-in carrying the request reason on
success; a rejection is caught and answered with an error-typed reply
instead. Each listener is modeled by its outcome. -/
def handleBargeInMessage (s : AbortState) (reason : String)
    (listenerResults : List (Except String Unit)) : AbortState × AbortReply :=
  let s1 := { s with bargingIn := true }
  match promiseAll listenerResults with
  | Except.ok _ => (s1, AbortReply.bargedIn reason)
  | Except.error e => (s1, AbortReply.errorReply e)

/-- The local AbortHandler.bargeIn method (used for parent-to-child
propagation): it sets bargingIn and awaits Promise.allSettled, which
never rejects, so listener outcomes do not affect the result. -/
def bargeInMethod (s : AbortState) (listenerResults : List (Except String Unit)) :
    AbortState :=
  let _ := listenerResults
  { s with bargingIn := true }

/-- Events of a ChannelBroadcaster as seen by its queue: a payload is
enqueued (buffer.push in emitToAll, either by the first call before its
await of init, or by a call that arrives while connecting is still true),
or the drain loop completes one iteration (buffer.shift followed by
_send, appending the payload to the sequence handed to the transport). -/
inductive BEvent (α : Type) where
  | enqueue (x : α)
  | drainOne

/-- Queue state of a ChannelBroadcaster: the pending buffer and the
sequence of payloads already handed to connection.sendMessage, in order. -/
structure BState (α : Type) where
  buffer : List α
  sent : List α

/-- The broadcaster with no buffered or sent payloads. -/
def initB {α : Type} : BState α :=
  { buffer := [], sent := [] }

/-- One step of the broadcaster queue. enqueue appends to the buffer
tail; drainOne removes the buffer head and hands it to the transport
(a no-op on an empty buffer, where the while loop exits). -/
def bstep {α : Type} (s : BState α) : BEvent α → BState α
  | .enqueue x => { s with buffer := s.buffer ++ [x] }
  | .drainOne =>
    match s.buffer with
    | [] => s
    | d :: rest => { buffer := rest, sent := s.sent ++ [d] }

/-- Run a sequence of interleaved broadcaster events. -/
def brun {α : Type} (s : BState α) : List (BEvent α) → BState α
  | [] => s
  | e :: es => brun (bstep s e) es

/-- The payloads enqueued by an event sequence, in arrival order. -/
def enqueuedOf {α : Type} : List (BEvent α) → List α
  | [] => []
  | BEvent.enqueue x :: es => x :: enqueuedOf es
  | BEvent.drainOne :: es => enqueuedOf es

/-- Role of a PostMessageBridge (parent, canvas or chat). -/
inductive Role where
  | parent
  | canvas
  | chat
deriving DecidableEq

/-- Envelope types of the window-messaging transport. -/
inductive EnvType where
  | rpc
  | rpcCompressed
  | ready
  | errorEnv
deriving DecidableEq

/-- Embedding of PostMessageBridge.isPostMessageOriginAllowed
(src/src/PostMessageBridge.ts:177-199): with no configured allowlist
every origin is trusted; otherwise some entry must match the origin
exactly, or be a wildcard entry starting with *. whose remainder after
the * (the substring from index 1, keeping the dot) is a suffix of the
origin. -/
def isPostMessageOriginAllowed (botdojoChatDomain : Option (List String))
    (origin : String) : Bool :=
  match botdojoChatDomain with
  | none => true
  | some ds =>
    ds.any (fun allowed =>
      if allowed == origin then true
      else if allowed.startsWith "*." then origin.endsWith (allowed.drop 1)
      else false)

/-- Outcome of the CORS stage of handleMessageEvent for one inbound
envelope. -/
inductive CorsDecision where
  | accept
  | rejectWithErrorResponse
  | rejectSilent
deriving DecidableEq

/-- Embedding of the CORS validation stage of handleMessageEvent
(src/src/PostMessageBridge.ts:415-449), applied to an envelope that
passed the earlier shape and source-window filters. A chat-role bridge
skips validation, as does an undefined allowlist. Otherwise a rejected
origin is dropped; when the envelope is an rpc or compressed rpc
envelope whose payload parses to a message with a truthy id
(payloadHasId), an error response built by RPCMessage.response is sent
back before dropping. -/
def corsGate (role : Option Role) (chatDomain : Option (List String))
    (origin : String) (etype : EnvType) (payloadHasId : Bool) : CorsDecision :=
  if role = some Role.chat then CorsDecision.accept
  else
    match chatDomain with
    | none => CorsDecision.accept
    | some ds =>
      if isPostMessageOriginAllowed (some ds) origin then CorsDecision.accept
      else if (etype = EnvType.rpc ∨ etype = EnvType.rpcCompressed) ∧ payloadHasId then
        CorsDecision.rejectWithErrorResponse
      else CorsDecision.rejectSilent

/-!
Compression codec of PostMessageBridge (src/src/PostMessageBridge.ts:314-345).
A JavaScript string is modeled as its list of Unicode code points (each
below 0x110000); a byte string as a list of naturals below 256.
compressMessage is TextEncoder().encode (UTF-8) followed by
String.fromCharCode and btoa (standard base64), with the literal marker
text compressed: prepended; decompressMessage strips the marker, applies
atob, and decodes UTF-8 with TextDecoder.
-/

/-- Code points of the base64 alphabet A-Z a-z 0-9 + / used by btoa. -/
def b64Table : List Nat :=
  (List.range 26).map (fun i => 65 + i) ++ (List.range 26).map (fun i => 97 + i) ++
    (List.range 10).map (fun i => 48 + i) ++ [43, 47]

/-- The base64 character for a sextet. -/
def b64CharCode (s : Nat) : Nat :=
  b64Table.getD s 0

/-- The sextet for a base64 character. -/
def b64Index (c : Nat) : Nat :=
  b64Table.indexOf c

/-- btoa: encode bytes three at a time into four base64 characters;
a final group of one byte yields two characters and two padding signs
(code 61), a final group of two bytes yields three characters and one
padding sign. -/
def b64Encode : List Nat → List Nat
  | [] => []
  | [a] => [b64CharCode (a / 4), b64CharCode (a % 4 * 16), 61, 61]
  | [a, b] => [b64CharCode (a / 4), b64CharCode (a % 4 * 16 + b / 16),
      b64CharCode (b % 16 * 4), 61]
  | a :: b :: c :: rest =>
    b64CharCode (a / 4) :: b64CharCode (a % 4 * 16 + b / 16) ::
      b64CharCode (b % 16 * 4 + c / 64) :: b64CharCode (c % 64) :: b64Encode rest

/-- atob: decode four base64 characters into three bytes, with the
padding sign (code 61) cutting the final group to one or two bytes. -/
def b64Decode : List Nat → List Nat
  | c0 :: c1 :: c2 :: c3 :: rest =>
    if c2 = 61 then [b64Index c0 * 4 + b64Index c1 / 16]
    else if c3 = 61 then
      [b64Index c0 * 4 + b64Index c1 / 16, b64Index c1 % 16 * 16 + b64Index c2 / 4]
    else
      (b64Index c0 * 4 + b64Index c1 / 16) ::
        (b64Index c1 % 16 * 16 + b64Index c2 / 4) ::
        (b64Index c2 % 4 * 64 + b64Index c3) :: b64Decode rest
  | _ => []

/-- UTF-8 encoding of one code point (what TextEncoder emits for it). -/
def utf8EncodeChar (n : Nat) : List Nat :=
  if n < 128 then [n]
  else if n < 2048 then [192 + n / 64, 128 + n % 64]
  else if n < 65536 then [224 + n / 4096, 128 + n / 64 % 64, 128 + n % 64]
  else [240 + n / 262144, 128 + n / 4096 % 64, 128 + n / 64 % 64, 128 + n % 64]

/-- TextEncoder().encode over a code-point string. -/
def utf8Encode : List Nat → List Nat
  | [] => []
  | n :: rest => utf8EncodeChar n ++ utf8Encode rest

/-- TextDecoder().decode on the output of utf8Encode: a lead byte below
128 stands alone, a lead byte below 224 consumes one continuation byte,
below 240 two, otherwise three. Replacement handling of malformed input
is elided (missing continuation bytes read as zero) since only encoder
output is decoded here. -/
def utf8Decode : List Nat → List Nat
  | [] => []
  | b :: rest =>
    if b < 128 then b :: utf8Decode rest
    else if b < 224 then
      ((b - 192) * 64 + rest.getD 0 0 % 64) :: utf8Decode (rest.drop 1)
    else if b < 240 then
      ((b - 224) * 4096 + rest.getD 0 0 % 64 * 64 + rest.getD 1 0 % 64) ::
        utf8Decode (rest.drop 2)
    else
      ((b - 240) * 262144 + rest.getD 0 0 % 64 * 4096 + rest.getD 1 0 % 64 * 64 +
        rest.getD 2 0 % 64) :: utf8Decode (rest.drop 3)
termination_by l => l.length
decreasing_by
  all_goals simp only [List.length_cons, List.length_drop]
  all_goals omega

/-- The code points of the marker text compressed: that prefixes every
compressed payload. -/
def compressedMarker : List Nat :=
  [99, 111, 109, 112, 114, 101, 115, 115, 101, 100, 58]

/-- PostMessageBridge.compressMessage: UTF-8 encode the serialized
message, base64 it via String.fromCharCode and btoa, and prepend the
marker. -/
def compressMessage (message : List Nat) : List Nat :=
  compressedMarker ++ b64Encode (utf8Encode message)

/-- PostMessageBridge.decompressMessage: a payload without the marker is
returned unchanged (not compressed); otherwise the marker is stripped,
the remainder run through atob, and the bytes decoded as UTF-8. -/
def decompressMessage (compressed : List Nat) : List Nat :=
  if !(compressedMarker.isPrefixOf compressed) then compressed
  else utf8Decode (b64Decode (compressed.drop compressedMarker.length))

/-- Envelope types chosen by PostMessageBridge.sendMessage. -/
inductive SendEnvelopeType where
  | rpc
  | rpcCompressed
deriving DecidableEq

/-- The threshold resolution this.config.compressionThreshold || 50000:
a missing or zero (falsy) configured value yields the 50000 default. -/
def resolvedThreshold (configured : Option Nat) : Nat :=
  match configured with
  | some n => if n = 0 then 50000 else n
  | none => 50000

/-- The flag resolution this.config.enableCompression !== false. -/
def resolvedEnableCompression : Option Bool → Bool
  | some false => false
  | _ => true

/-- The envelope selection of PostMessageBridge.sendMessage
(src/src/PostMessageBridge.ts:261-298): when compression is enabled and
the serialized length exceeds the threshold, a compressed envelope
carrying compressMessage of the serialized text is sent (the fallback on
a compression exception is elided: the modeled codec is total);
otherwise a plain rpc envelope carrying the message. -/
def chooseEnvelope (enableCompression : Option Bool) (threshold : Option Nat)
    (serialized : List Nat) : SendEnvelopeType × List Nat :=
  if resolvedEnableCompression enableCompression
      && decide (serialized.length > resolvedThreshold threshold) then
    (SendEnvelopeType.rpcCompressed, compressMessage serialized)
  else
    (SendEnvelopeType.rpc, serialized)

theorem b64Index_b64CharCode : ∀ s : Nat, s < 64 → b64Index (b64CharCode s) = s := by
  decide

theorem b64CharCode_ne_61 : ∀ s : Nat, s < 64 → b64CharCode s ≠ 61 := by
  decide

theorem b64_decode_encode (bs : List Nat) (h : ∀ b ∈ bs, b < 256) :
    b64Decode (b64Encode bs) = bs := by
  induction bs using b64Encode.induct with
  | case1 => rfl
  | case2 a =>
    have ha : a < 256 := h a (by simp)
    have h0 := b64Index_b64CharCode (a / 4) (by omega)
    have h1 := b64Index_b64CharCode (a % 4 * 16) (by omega)
    simp only [b64Encode, b64Decode, if_pos rfl, h0, h1]
    have e0 : a / 4 * 4 + a % 4 * 16 / 16 = a := by omega
    rw [e0]
    simp
  | case3 a b =>
    have ha : a < 256 := h a (by simp)
    have hb : b < 256 := h b (by simp)
    have h0 := b64Index_b64CharCode (a / 4) (by omega)
    have h1 := b64Index_b64CharCode (a % 4 * 16 + b / 16) (by omega)
    have h2 := b64Index_b64CharCode (b % 16 * 4) (by omega)
    have n2 := b64CharCode_ne_61 (b % 16 * 4) (by omega)
    simp only [b64Encode, b64Decode, if_neg n2, if_pos rfl, h0, h1, h2]
    have e0 : a / 4 * 4 + (a % 4 * 16 + b / 16) / 16 = a := by omega
    have e1 : (a % 4 * 16 + b / 16) % 16 * 16 + b % 16 * 4 / 4 = b := by omega
    rw [e0, e1]
    simp
  | case4 a b c rest ih =>
    have ha : a < 256 := h a (by simp)
    have hb : b < 256 := h b (by simp)
    have hc : c < 256 := h c (by simp)
    have h0 := b64Index_b64CharCode (a / 4) (by omega)
    have h1 := b64Index_b64CharCode (a % 4 * 16 + b / 16) (by omega)
    have h2 := b64Index_b64CharCode (b % 16 * 4 + c / 64) (by omega)
    have h3 := b64Index_b64CharCode (c % 64) (by omega)
    have n2 := b64CharCode_ne_61 (b % 16 * 4 + c / 64) (by omega)
    have n3 := b64CharCode_ne_61 (c % 64) (by omega)
    have ihr := ih (fun x hx => h x (by simp [hx]))
    simp only [b64Encode, b64Decode, if_neg n2, if_neg n3, h0, h1, h2, h3, ihr]
    have e0 : a / 4 * 4 + (a % 4 * 16 + b / 16) / 16 = a := by omega
    have e1 : (a % 4 * 16 + b / 16) % 16 * 16 + (b % 16 * 4 + c / 64) / 4 = b := by omega
    have e2 : (b % 16 * 4 + c / 64) % 4 * 64 + c % 64 = c := by omega
    rw [e0, e1, e2]

theorem utf8EncodeChar_bytes_lt (n : Nat) (h : n < 1114112) :
    ∀ b ∈ utf8EncodeChar n, b < 256 := by
  unfold utf8EncodeChar
  split
  · intro b hb
    simp at hb
    omega
  · split
    · intro b hb
      simp at hb
      rcases hb with h1 | h1 <;> omega
    · split
      · intro b hb
        simp at hb
        rcases hb with h1 | h1 | h1 <;> omega
      · intro b hb
        simp at hb
        rcases hb with h1 | h1 | h1 | h1 <;> omega

theorem utf8Encode_bytes_lt (s : List Nat) (h : ∀ n ∈ s, n < 1114112) :
    ∀ b ∈ utf8Encode s, b < 256 := by
  induction s with
  | nil => intro b hb; simp [utf8Encode] at hb
  | cons n rest ih =>
    intro b hb
    simp only [utf8Encode, List.mem_append] at hb
    rcases hb with hb | hb
    · exact utf8EncodeChar_bytes_lt n (h n (by simp)) b hb
    · exact ih (fun x hx => h x (by simp [hx])) b hb

theorem utf8Decode_encodeChar (n : Nat) (h : n < 1114112) (rest : List Nat) :
    utf8Decode (utf8EncodeChar n ++ rest) = n :: utf8Decode rest := by
  unfold utf8EncodeChar
  split
  · rename_i h1
    simp only [List.cons_append, List.nil_append]
    conv_lhs => rw [utf8Decode]
    rw [if_pos h1]
  · split
    · rename_i h1 h2
      simp only [List.cons_append, List.nil_append]
      conv_lhs => rw [utf8Decode]
      rw [if_neg (by omega), if_pos (by omega)]
      simp only [List.getD_cons_zero, List.drop_succ_cons, List.drop_zero]
      have e0 : (192 + n / 64 - 192) * 64 + (128 + n % 64) % 64 = n := by omega
      rw [e0]
    · split
      · rename_i h1 h2 h3
        simp only [List.cons_append, List.nil_append]
        conv_lhs => rw [utf8Decode]
        rw [if_neg (by omega), if_neg (by omega), if_pos (by omega)]
        simp only [List.getD_cons_zero, List.getD_cons_succ, List.drop_succ_cons,
          List.drop_zero]
        have e0 : (224 + n / 4096 - 224) * 4096 + (128 + n / 64 % 64) % 64 * 64 +
            (128 + n % 64) % 64 = n := by omega
        rw [e0]
      · rename_i h1 h2 h3
        simp only [List.cons_append, List.nil_append]
        conv_lhs => rw [utf8Decode]
        rw [if_neg (by omega), if_neg (by omega), if_neg (by omega)]
        simp only [List.getD_cons_zero, List.getD_cons_succ, List.drop_succ_cons,
          List.drop_zero]
        have e0 : (240 + n / 262144 - 240) * 262144 + (128 + n / 4096 % 64) % 64 * 4096 +
            (128 + n / 64 % 64) % 64 * 64 + (128 + n % 64) % 64 = n := by omega
        rw [e0]

theorem utf8_decode_encode (s : List Nat) (h : ∀ n ∈ s, n < 1114112) :
    utf8Decode (utf8Encode s) = s := by
  induction s with
  | nil => rw [utf8Encode, utf8Decode]
  | cons n rest ih =>
    simp only [utf8Encode]
    rw [utf8Decode_encodeChar n (h n (by simp)), ih (fun x hx => h x (by simp [hx]))]

theorem decompress_compress (s : List Nat) (h : ∀ n ∈ s, n < 1114112) :
    decompressMessage (compressMessage s) = s := by
  unfold compressMessage decompressMessage
  have hpre : compressedMarker.isPrefixOf
      (compressedMarker ++ b64Encode (utf8Encode s)) = true := by
    rw [List.isPrefixOf_iff_prefix]
    exact List.prefix_append _ _
  rw [hpre]
  simp only [Bool.not_true, Bool.false_eq_true, if_false, List.drop_left]
  rw [b64_decode_encode _ (utf8Encode_bytes_lt s h), utf8_decode_encode s h]

theorem exbind_ok {ε α β : Type} (a : α) (f : α → Except ε β) :
    (Except.ok a >>= f) = f a := rfl

theorem exbind_err {ε α β : Type} (e : ε) (f : α → Except ε β) :
    ((Except.error e : Except ε α) >>= f) = Except.error e := rfl

theorem marshal_nestFields (k : Nat) :
    ∀ (d : Nat) (id : String) (cbs : Callbacks) (maxDepth : Nat), d + k ≤ 100 →
      getRequestProxyObject id cbs (JVal.vobj (nestFields k)) d maxDepth =
        Except.ok (JVal.vobj (nestMarshaledFields k id),
          mapSet cbs (deepPath k id) (JVal.vobj (nestFields 0), JVal.vfunc 7)) := by
  induction k with
  | zero =>
    intro d id cbs maxDepth h
    simp +decide [getRequestProxyObject, getRequestProxyObjectProps, orderedProps,
      dedupKeys, sortByKey, insertByKey, ignores, nestFields, nestMarshaledFields,
      deepPath, exbind_ok]
  | succ k ih =>
    intro d id cbs maxDepth h
    have hd : d ≤ 99 := by omega
    have hih := ih (d + 1) (id ++ "." ++ "a") cbs maxDepth (by omega)
    have horder : orderedProps [("a", JVal.vobj (nestFields k))] =
        [("a", JVal.vobj (nestFields k))] := by
      simp +decide [orderedProps, dedupKeys, sortByKey, insertByKey, ignores]
    rw [show nestFields (k + 1) = [("a", JVal.vobj (nestFields k))] from rfl]
    rw [show nestMarshaledFields (k + 1) id =
      [("a", JVal.vobj (nestMarshaledFields k (id ++ "." ++ "a")))] from rfl]
    rw [show deepPath (k + 1) id = deepPath k (id ++ "." ++ "a") from rfl]
    rw [getRequestProxyObject, horder, getRequestProxyObjectProps, if_pos hd, hih]
    simp [exbind_ok, getRequestProxyObjectProps]

theorem containsFuncToken_nestMarshaled (k : Nat) : ∀ id : String,
    containsFuncToken (JVal.vobj (nestMarshaledFields k id)) = true := by
  induction k with
  | zero =>
    intro id
    simp +decide [nestMarshaledFields, containsFuncToken, containsFuncTokenProps,
      containsFuncTokenList, fieldsHaveTokenKey]
  | succ k ih =>
    intro id
    simp +decide [nestMarshaledFields, containsFuncToken, containsFuncTokenProps,
      containsFuncTokenList, fieldsHaveTokenKey, ih]

theorem containsLiveFunc_nestMarshaled (k : Nat) : ∀ id : String,
    containsLiveFunc (JVal.vobj (nestMarshaledFields k id)) = false := by
  induction k with
  | zero =>
    intro id
    simp [nestMarshaledFields, containsLiveFunc, containsLiveFuncProps,
      containsLiveFuncList]
  | succ k ih =>
    intro id
    simp [nestMarshaledFields, containsLiveFunc, containsLiveFuncProps,
      containsLiveFuncList, ih]

theorem promiseAll_ok_of {α : Type} (rs : List (Except String α))
    (h : ∀ r ∈ rs, r.isOk = true) : ∃ vs, promiseAll rs = Except.ok vs := by
  induction rs with
  | nil => exact ⟨[], rfl⟩
  | cons r rest ih =>
    obtain ⟨vs, hvs⟩ := ih (fun x hx => h x (by simp [hx]))
    have hr := h r (by simp)
    cases r with
    | error e => simp [Except.isOk, Except.toBool] at hr
    | ok v => exact ⟨v :: vs, by simp [promiseAll, exbind_ok, hvs]⟩

theorem promiseAll_isOk_of_ok {α : Type} (rs : List (Except String α))
    (vs : List α) (h : promiseAll rs = Except.ok vs) : ∀ r ∈ rs, r.isOk = true := by
  induction rs generalizing vs with
  | nil => intro r hr; cases hr
  | cons r rest ih =>
    intro x hx
    cases r with
    | error e => rw [promiseAll, exbind_err] at h; cases h
    | ok v =>
      rw [promiseAll, exbind_ok] at h
      rcases hp : promiseAll rest with e2 | vs2
      · rw [hp, exbind_err] at h; cases h
      · rcases List.mem_cons.mp hx with hx | hx
        · subst hx
          rfl
        · exact ih vs2 hp x hx

theorem brun_sent_buffer {α : Type} (s : BState α) (es : List (BEvent α)) :
    (brun s es).sent ++ (brun s es).buffer = s.sent ++ s.buffer ++ enqueuedOf es := by
  induction es generalizing s with
  | nil => simp [brun, enqueuedOf]
  | cons e es ih =>
    cases e with
    | enqueue x =>
      rw [brun, ih]
      simp [bstep, enqueuedOf, List.append_assoc]
    | drainOne =>
      rw [brun, ih]
      cases hb : s.buffer with
      | nil => simp [bstep, hb, enqueuedOf]
      | cons d rest => simp [bstep, hb, enqueuedOf]

theorem originEntry_iff (a origin : String) :
    (if a == origin then true
     else if a.startsWith "*." then origin.endsWith (a.drop 1)
     else false) = true ↔
      (a = origin ∨ (a.startsWith "*." = true ∧ origin.endsWith (a.drop 1) = true)) := by
  by_cases h1 : a = origin
  · simp [h1]
  · have hb : (a == origin) = false := by simp [h1]
    rw [hb]
    by_cases h2 : a.startsWith "*." = true
    · simp [h2, h1]
    · simp only [Bool.false_eq_true, if_false]
      simp [h2, h1]

theorem isPostMessageOriginAllowed_iff (ds : List String) (origin : String) :
    isPostMessageOriginAllowed (some ds) origin = true ↔
      ∃ a ∈ ds, a = origin ∨ (a.startsWith "*." = true ∧ origin.endsWith (a.drop 1) = true) := by
  rw [isPostMessageOriginAllowed]
  rw [List.any_eq_true]
  constructor
  · rintro ⟨a, ha, hpa⟩
    exact ⟨a, ha, (originEntry_iff a origin).mp hpa⟩
  · rintro ⟨a, ha, hpa⟩
    exact ⟨a, ha, (originEntry_iff a origin).mpr hpa⟩

/-- Claim C1 (status code_bug): the claim states that the outbound
marshaler recurses into an object or array property only while the
current depth is at most the configured maxDepth (default 18), so that
functions nested beyond maxDepth are not replaced by Function Reference
Tokens. The code instead tests the hardcoded literal 99 and never reads
maxDepth. Evaluation at the failing input: with maxDepth 18, marshaling a
chain of 21 nested objects whose innermost property is a function (the
function sits at nesting level 21, far beyond 18) still tokenizes the
function: the result contains a Function Reference Token and no live
function survives, contradicting the claimed pass-through. -/
theorem getRequestProxyObject_depth_gate_ignores_maxDepth :
    getRequestProxyObject "r" [] (JVal.vobj (nestFields 20)) 0 18 =
      Except.ok (JVal.vobj (nestMarshaledFields 20 "r"),
        [(deepPath 20 "r", (JVal.vobj (nestFields 0), JVal.vfunc 7))])
  ∧ containsFuncToken (JVal.vobj (nestMarshaledFields 20 "r")) = true
  ∧ containsLiveFunc (JVal.vobj (nestMarshaledFields 20 "r")) = false := by
  refine ⟨?_, containsFuncToken_nestMarshaled 20 "r", containsLiveFunc_nestMarshaled 20 "r"⟩
  have h := marshal_nestFields 20 0 "r" [] 18 (by omega)
  simpa [mapSet] using h

/-- Claim C2 counterexample: the claim states that on timeout the Pending
Call Entry is removed from the pending-call table. In the code the
timeout callback only flips responseSent and rejects; it never deletes
the callbacks entry, so right after the timeout fires the entry is still
in the table. -/
theorem sendRequest_timeout_entry_not_removed :
    (callStep initialCall (CallEvent.timeoutFires "peer" "doWork")).inTable = true := rfl

/-- Claim C2 (status corrected, amended): when no response arrives in
time the promise rejects with a timeout-kind RPCMessageError, but the
entry is NOT removed from the table at timeout; a response arriving
afterwards is silently ignored with no effect on the promise, and it is
that late delivery which finally removes the entry. The timeout duration
is the per-call override, else options.timeout, else 30000 ms. -/
theorem sendRequest_timeout_rejects_entry_retained (dest fn : String) (d : JVal)
    (t o : Nat) :
    (callStep initialCall (CallEvent.timeoutFires dest fn)).promise =
      some (Except.error (mkRPCMessageError
        ("Timeout waiting for response from " ++ dest ++ " for " ++ fn)))
  ∧ (callStep initialCall (CallEvent.timeoutFires dest fn)).inTable = true
  ∧ (callStep (callStep initialCall (CallEvent.timeoutFires dest fn))
      (CallEvent.responseArrives d)).promise =
      (callStep initialCall (CallEvent.timeoutFires dest fn)).promise
  ∧ (callStep (callStep initialCall (CallEvent.timeoutFires dest fn))
      (CallEvent.responseArrives d)).inTable = false
  ∧ effectiveTimeout (some t) (some o) = t
  ∧ effectiveTimeout none (some o) = o
  ∧ effectiveTimeout none none = 30000 := by
  refine ⟨rfl, rfl, ?_, rfl, rfl, rfl, rfl⟩
  simp [callStep, initialCall]

/-- Claim C3 counterexample: the claim states the handler replies
barged-in even when some listener fails. With two listeners, the second
of which rejects, the inbound barge-in branch replies with an error-typed
response instead of barged-in. -/
theorem bargeIn_listener_failure_yields_error_reply :
    (handleBargeInMessage abortIdle "stop" [Except.ok (), Except.error "boom"]).2 =
      AbortReply.errorReply "boom"
  ∧ (handleBargeInMessage abortIdle "stop" [Except.ok (), Except.error "boom"]).2 ≠
      AbortReply.bargedIn "stop" := by
  exact ⟨rfl, by decide⟩

/-- Claim C3 (status corrected, amended): the inbound barge-in branch
starts every registered listener but awaits them with Promise.all, a
short-circuiting join: the handler replies barged-in exactly when every
listener succeeds, and any listener failure is caught and answered with
an error-typed reply carrying the first failure. (The local bargeIn
method used for parent propagation does use the non-short-circuiting
Promise.allSettled.) -/
theorem bargeIn_reply_iff_all_listeners_ok (s : AbortState) (reason : String)
    (outs : List (Except String Unit)) :
    (handleBargeInMessage s reason outs).2 = AbortReply.bargedIn reason ↔
      ∀ r ∈ outs, r.isOk = true := by
  unfold handleBargeInMessage
  rcases hp : promiseAll outs with e | vs
  · simp only [hp]
    constructor
    · intro h2
      exact absurd h2 (by simp)
    · intro hall
      exfalso
      obtain ⟨vs2, hvs2⟩ := promiseAll_ok_of outs hall
      rw [hp] at hvs2
      cases hvs2
  · simp only [hp]
    exact ⟨fun _ => promiseAll_isOk_of_ok outs vs hp, fun _ => by simp⟩

/-- Claim C4 counterexample: the claim states that after a barge-in
sequence completes the node returns to idle with bargingIn false again.
After a fully successful inbound barge-in starting from the idle state,
bargingIn is still true. -/
theorem bargingIn_not_reset_after_barge_in :
    (handleBargeInMessage abortIdle "stop" [Except.ok ()]).1.bargingIn = true := rfl

/-- Claim C4 (status corrected, amended): a barge-in sequence leaves the
node with bargingIn permanently true (the state machine is Idle to
BargingIn with no transition back; the other two flags are untouched);
barge-in can still be repeated in the sense that a later inbound barge-in
message is processed identically, because the handler never consults the
flag. -/
theorem bargeIn_flag_absorbing (s : AbortState) (reason reason2 : String)
    (outs outs2 : List (Except String Unit)) :
    (handleBargeInMessage s reason outs).1 = { s with bargingIn := true }
  ∧ (handleBargeInMessage (handleBargeInMessage s reason outs).1 reason2 outs2).2 =
      (handleBargeInMessage s reason2 outs2).2 := by
  unfold handleBargeInMessage
  rcases hp : promiseAll outs with e | vs <;>
    rcases hp2 : promiseAll outs2 with e2 | vs2 <;>
    simp [hp, hp2]

/-- Claim C5 (status confirmed): delivering two response messages with
the same correlation id settles the pending call exactly once, with the
first response data (rejecting when that data is tagged MessageError,
resolving otherwise), removes the entry, and the second delivery is a
no-op with no effect on the promise or the table. -/
theorem response_delivery_idempotent (d1 d2 : JVal) :
    (callStep initialCall (CallEvent.responseArrives d1)).promise =
      some (if isMessageErrorData d1 then Except.error d1 else Except.ok d1)
  ∧ (callStep initialCall (CallEvent.responseArrives d1)).inTable = false
  ∧ callStep (callStep initialCall (CallEvent.responseArrives d1))
      (CallEvent.responseArrives d2) =
      callStep initialCall (CallEvent.responseArrives d1) := by
  refine ⟨rfl, rfl, ?_⟩
  simp [callStep, initialCall]

/-- Claim C6 (status confirmed): constructing an RPCMessage with equal
source and destination throws, and RPCMessage.response on a request
whose source differs from its destination yields a message with the same
id, swapped source and destination, and direction response. -/
theorem rpcMessage_ctor_and_response_swap (uuid uuid2 s fn : String) (dir : Direction)
    (d d2 : JVal) (req : RPCMessage) (h : req.source ≠ req.destination) :
    RPCMessage.make uuid s s dir fn d =
      Except.error "source and destination cannot be the same"
  ∧ RPCMessage.response uuid2 req d2 = Except.ok
      { id := req.id, source := req.destination, destination := req.source,
        direction := Direction.response, functionName := req.functionName,
        data := d2, host_id := "notset" } := by
  constructor
  · simp [RPCMessage.make]
  · unfold RPCMessage.response RPCMessage.make
    rw [if_neg (fun hh => h hh.symm)]
    rfl

/-- Witness for claim C6 at concrete inputs. -/
theorem rpcMessage_ctor_and_response_swap_witness :
    RPCMessage.make "u1" "x" "x" Direction.request "g" JVal.vnull =
      Except.error "source and destination cannot be the same"
  ∧ RPCMessage.response "u2"
      { id := "42", source := "a", destination := "b", direction := Direction.request,
        functionName := "fn", data := JVal.vnull, host_id := "notset" } JVal.vnull =
      Except.ok
        { id := "42", source := "b", destination := "a",
          direction := Direction.response, functionName := "fn", data := JVal.vnull,
          host_id := "notset" } :=
  rpcMessage_ctor_and_response_swap "u1" "u2" "x" "g" Direction.request JVal.vnull
    JVal.vnull
    { id := "42", source := "a", destination := "b", direction := Direction.request,
      functionName := "fn", data := JVal.vnull, host_id := "notset" }
    (by decide)

/-- Claim C7 (status confirmed): payloads enqueued while the broadcaster
connection is still being established are handed to the transport in
strict FIFO enqueue order: with A enqueued before B and the drain loop
then running, A is sent strictly before B; in general, after any
interleaving of enqueues and drain iterations the sent sequence is a
prefix of the enqueue sequence. -/
theorem broadcaster_buffered_fifo {α : Type} (A B : α) (es : List (BEvent α)) :
    (brun initB [BEvent.enqueue A, BEvent.enqueue B, BEvent.drainOne,
      BEvent.drainOne]).sent = [A, B]
  ∧ ∃ rest, (brun initB es).sent ++ rest = enqueuedOf es := by
  constructor
  · rfl
  · refine ⟨(brun initB es).buffer, ?_⟩
    have h := brun_sent_buffer (initB (α := α)) es
    simpa [initB] using h

/-- Claim C8 (status confirmed): with a configured botdojoChatDomain
allowlist on a non-chat bridge, an inbound envelope is accepted by the
CORS gate exactly when its origin equals an allowlist entry or matches a
wildcard-subdomain entry (origin ends with the entry text after the *);
a rejected rpc or compressed-rpc envelope whose payload carries an id is
answered with an error response; with no allowlist every origin is
accepted. -/
theorem cors_origin_acceptance (role : Option Role) (h : role ≠ some Role.chat)
    (ds : List String) (origin : String) (etype : EnvType) (hasId : Bool) :
    (corsGate role (some ds) origin etype hasId = CorsDecision.accept ↔
      ∃ a ∈ ds, a = origin ∨ (a.startsWith "*." = true ∧ origin.endsWith (a.drop 1) = true))
  ∧ corsGate role none origin etype hasId = CorsDecision.accept
  ∧ (isPostMessageOriginAllowed (some ds) origin = false →
      (etype = EnvType.rpc ∨ etype = EnvType.rpcCompressed) → hasId = true →
      corsGate role (some ds) origin etype hasId = CorsDecision.rejectWithErrorResponse) := by
  refine ⟨?_, ?_, ?_⟩
  · rw [corsGate, if_neg h]
    by_cases hall : isPostMessageOriginAllowed (some ds) origin = true
    · rw [if_pos hall]
      simp only [true_iff]
      exact (isPostMessageOriginAllowed_iff ds origin).mp hall
    · rw [if_neg hall]
      constructor
      · intro hacc
        exfalso
        split at hacc <;> cases hacc
      · intro hex
        exact absurd ((isPostMessageOriginAllowed_iff ds origin).mpr hex) hall
  · rw [corsGate, if_neg h]
  · intro h1 h2 h3
    rw [corsGate, if_neg h]
    rw [if_neg (by simp [h1])]
    rw [if_pos ⟨h2, h3⟩]

/-- Witness for claim C8 at concrete inputs. -/
theorem cors_origin_acceptance_witness :
    (corsGate (some Role.parent) (some ["example.com", "*.bot.dev"]) "app.bot.dev"
        EnvType.rpc true = CorsDecision.accept ↔
      ∃ a ∈ ["example.com", "*.bot.dev"], a = "app.bot.dev" ∨
        (a.startsWith "*." = true ∧ ("app.bot.dev").endsWith (a.drop 1) = true))
  ∧ corsGate (some Role.parent) none "app.bot.dev" EnvType.rpc true = CorsDecision.accept
  ∧ (isPostMessageOriginAllowed (some ["example.com", "*.bot.dev"]) "app.bot.dev" = false →
      (EnvType.rpc = EnvType.rpc ∨ EnvType.rpc = EnvType.rpcCompressed) → true = true →
      corsGate (some Role.parent) (some ["example.com", "*.bot.dev"]) "app.bot.dev"
        EnvType.rpc true = CorsDecision.rejectWithErrorResponse) :=
  cors_origin_acceptance (some Role.parent) (by decide) ["example.com", "*.bot.dev"]
    "app.bot.dev" EnvType.rpc true

/-- Claim C9 (status confirmed): with compression enabled and the
serialized message longer than the resolved threshold, sendMessage picks
a compressed envelope carrying compressMessage of the serialized text,
and decompressMessage of that payload is exactly the original serialized
text. -/
theorem compressed_envelope_roundtrip (enableCompression : Option Bool)
    (threshold : Option Nat) (s : List Nat)
    (hc : resolvedEnableCompression enableCompression = true)
    (hl : s.length > resolvedThreshold threshold)
    (hv : ∀ n ∈ s, n < 1114112) :
    chooseEnvelope enableCompression threshold s =
      (SendEnvelopeType.rpcCompressed, compressMessage s)
  ∧ decompressMessage (compressMessage s) = s := by
  constructor
  · rw [chooseEnvelope, if_pos (by simp [hc, hl])]
  · exact decompress_compress s hv

/-- Witness for claim C9 at a concrete input exercising one, two, three
and four byte UTF-8 sequences with a configured threshold of 2. -/
theorem compressed_envelope_roundtrip_witness :
    chooseEnvelope none (some 2) [104, 955, 40000, 120000] =
      (SendEnvelopeType.rpcCompressed, compressMessage [104, 955, 40000, 120000])
  ∧ decompressMessage (compressMessage [104, 955, 40000, 120000]) =
      [104, 955, 40000, 120000] :=
  compressed_envelope_roundtrip none (some 2) [104, 955, 40000, 120000]
    (by decide) (by decide) (by decide)

/-- Claim C10 (status confirmed): the inbound marshaler applied to the
root value null returns a fresh empty object rather than null, while the
outbound marshaler collapses an empty object to null, so the two
marshalers are asymmetric at null. -/
theorem getReceivedProxyObject_null_asymmetry :
    getReceivedProxyObject "peer" JVal.vnull = Except.ok (JVal.vobj [])
  ∧ getRequestProxyObject "r" [] (JVal.vobj []) 0 18 = Except.ok (JVal.vnull, [])
  ∧ JVal.vobj [] ≠ JVal.vnull := by
  refine ⟨?_, ?_, fun hne => JVal.noConfusion hne⟩
  · simp [getReceivedProxyObject, getReceivedProxyObjectProps, orderedProps,
      dedupKeys, sortByKey, insertByKey, ignores, exbind_ok]
  · simp [getRequestProxyObject, getRequestProxyObjectProps, orderedProps,
      dedupKeys, sortByKey, insertByKey, ignores, exbind_ok]

end BotdojoRpc
